import Mathlib

/-!
Verification of the `fighting` web-framework core (`fighting/app.py`).

The development shallowly embeds the documentation-parsing and
directive-dispatch mechanism of the repository: the doc splitter
(`_parse_doc` together with the marker regexes `RE_DIRECTIVE` /
`RE_SHARED` and the `textwrap.dedent` / `str.strip` helpers it relies
on), the sigil-stripping parsers `parse_directive` / `parse_shared`,
the request-data extraction `get_request_data`, the built-in `input`
and `output` directive factories, the directive dispatcher inside
`Fighting.make_view`, the documentation view `Fighting._doc`, the
route-registration decorator `Fighting.res`, `get_title`, `accept_json`
and the documentation renderer `render`.

External collaborators (the YAML-like parser `simple_yaml`, the schema
compiler `validr.SchemaParser`, the Jinja template, the Markdown
renderer and `json.dumps`) are out of the repository's scope; they are
modelled as explicit functional parameters (`load`, `ApiCtx.parse`,
`md`, `dumps`) so every theorem quantifies over their behaviour, and
`render` returns the data handed to the external template rather than
the final HTML string.

Python strings are modelled as Lean `String`s manipulated through
their character lists, so that slicing (`doc[:start]`, `title[:20]`)
is by code points exactly as in Python.
-/

/-- Structured data values produced by the YAML-like parser and
exchanged with the validation engine (JSON-serialisable values). -/
inductive Yaml where
  | null
  | s (v : String)
  | i (v : Int)
  | b (v : Bool)
  | m (entries : List (String × Yaml))
  | l (items : List Yaml)

/-! ### Python string primitives -/

/-- Characters stripped by Python's `str.strip()` with no argument. -/
def pySpace : List Char := [' ', '\t', '\n', '\r', '\x0b', '\x0c']

/-- Strip the characters of `set` from both ends of a character list
(Python `str.strip(set)`). -/
def stripEnds (set : List Char) (cs : List Char) : List Char :=
  ((cs.dropWhile (· ∈ set)).reverse.dropWhile (· ∈ set)).reverse

/-- Python `s.strip()`. -/
def pyStrip (s : String) : String := ⟨stripEnds pySpace s.data⟩

/-- Python `s.strip('\n')` (used by `get_title`). -/
def stripNl (s : String) : String := ⟨stripEnds ['\n'] s.data⟩

/-- Python slicing `s[n:]` (by code points). -/
def strDrop (s : String) (n : Nat) : String := ⟨s.data.drop n⟩

/-- Python slicing `s[:n]` (by code points). -/
def strTake (s : String) (n : Nat) : String := ⟨s.data.take n⟩

/-- Python `len(s)` (code points). -/
def strLen (s : String) : Nat := s.data.length

/-- Python `s.startswith(pre)`. -/
def pyStartsWith (s pre : String) : Bool := pre.data.isPrefixOf s.data

/-- Split a character list at newline characters; the separators are
dropped, empty segments kept (Python `text.split('\n')`). -/
def splitNl : List Char → List (List Char)
  | [] => [[]]
  | c :: cs =>
    if c = '\n' then [] :: splitNl cs
    else
      match splitNl cs with
      | l :: ls => (c :: l) :: ls
      | [] => [[c]]

/-- Rejoin lines with newline characters. -/
def joinNl (ls : List (List Char)) : List Char :=
  (ls.intersperse ['\n']).flatten

/-! ### `textwrap.dedent` -/

/-- A line consisting of one or more spaces/tabs only
(`textwrap._whitespace_only_re`); such lines are normalised to empty. -/
def wsOnlyLine (l : List Char) : Bool :=
  !l.isEmpty && l.all (fun c => c = ' ' || c = '\t')

/-- A line contributing to the margin: it holds at least one character
other than space and tab (`textwrap._leading_whitespace_re`). -/
def hasContent (l : List Char) : Bool :=
  l.any (fun c => !(c = ' ' || c = '\t'))

/-- The leading run of spaces/tabs of a line. -/
def lineIndent (l : List Char) : List Char :=
  l.takeWhile (fun c => c = ' ' || c = '\t')

/-- Longest common prefix of two character lists; `textwrap.dedent`'s
margin loop computes exactly this across all content-line indents. -/
def lcp : List Char → List Char → List Char
  | a :: as, b :: bs => if a = b then a :: lcp as bs else []
  | _, _ => []

/-- `textwrap.dedent`: whitespace-only lines are emptied, the longest
common space/tab prefix of the remaining lines is computed, and that
margin is removed from every line that carries it. -/
def dedent (s : String) : String :=
  let ls := (splitNl s.data).map (fun l => if wsOnlyLine l then [] else l)
  let margin : List Char :=
    match (ls.filter hasContent).map lineIndent with
    | [] => []
    | i :: is => is.foldl lcp i
  ⟨joinNl (ls.map (fun l => if margin.isPrefixOf l then l.drop margin.length else l))⟩

/-! ### The marker regexes `RE_DIRECTIVE = r'[\t ]*\$\w+:'` and
`RE_SHARED = r'[\t ]*\@\w+:'`, and `re.search` over them. -/

/-- Python `\w` (restricted to the ASCII word characters actually used
in directive/shared keys). -/
def isWordChar (c : Char) : Bool := c.isAlphanum || c = '_'

/-- The sigil of `RE_DIRECTIVE`. -/
def directiveSigil : Char := '$'

/-- The sigil of `RE_SHARED`. -/
def sharedSigil : Char := '@'

/-- Does the regex `[\t ]*<sigil>\w+:` match at the head of `cs`?
The starred space/tab class is followed by characters outside it and
`\w+` is followed by a non-word character, so greedy matching needs no
backtracking. -/
def markerAt (sigil : Char) (cs : List Char) : Bool :=
  match cs.dropWhile (fun c => c = ' ' || c = '\t') with
  | [] => false
  | c :: r =>
    let w := r.takeWhile isWordChar
    c = sigil && !w.isEmpty && (r.drop w.length).head? = some ':'

/-- `re.search`: index of the leftmost position where the marker
matches, if any. -/
def searchFrom (sigil : Char) : List Char → Option Nat
  | [] => none
  | c :: cs =>
    if markerAt sigil (c :: cs) then some 0
    else (searchFrom sigil cs).map Nat.succ

/-- `mark.search(doc)` returning `match.start()`. -/
def reSearch (sigil : Char) (s : String) : Option Nat := searchFrom sigil s.data

/-! ### The doc splitter `_parse_doc` and the sigil parsers -/

/-- The YAML-like loader `simple_yaml.load` is an external collaborator:
it is passed in as a function from the YAML text to either an ordered
mapping or a parser error (its `ParserError`, re-raised by `_parse_doc`
as a `SchemaError`). -/
def Loader := String → Except String (List (String × Yaml))

/-- `fighting.app._parse_doc(doc, mark)`: `None` gives `('', {})`; with
no marker match the whole doc is dedented and stripped; otherwise the
doc is split at the match start, the suffix dedented and loaded as
YAML, the prefix dedented and stripped. -/
def parse_doc (load : Loader) (sigil : Char) (doc : Option String) :
    Except String (String × List (String × Yaml)) :=
  match doc with
  | none => .ok ("", [])
  | some d =>
    match reSearch sigil d with
    | none => .ok (pyStrip (dedent d), [])
    | some start =>
      match load (dedent (strDrop d start)) with
      | .error e => .error e
      | .ok data => .ok (pyStrip (dedent (strTake d start)), data)

/-- `OrderedDict` assignment `od[k] = v`: overwrite in place when the
key exists, append otherwise. -/
def odSet {α : Type} (m : List (String × α)) (k : String) (v : α) :
    List (String × α) :=
  if m.any (fun p => p.1 = k) then
    m.map (fun p => if p.1 = k then (k, v) else p)
  else m ++ [(k, v)]

/-- The key loop shared by `parse_directive` and `parse_shared`: each
key must start with the sigil, which is stripped before storing into a
fresh `OrderedDict`; otherwise `ValueError("Invalid <word> <k>")`. -/
def stripKeysAux (sigil : String) (word : String)
    (acc : List (String × Yaml)) :
    List (String × Yaml) → Except String (List (String × Yaml))
  | [] => .ok acc
  | (k, v) :: rest =>
    if pyStartsWith k sigil then
      stripKeysAux sigil word (odSet acc (strDrop k 1) v) rest
    else .error ("Invalid " ++ word ++ " " ++ k)

/-- `fighting.app.parse_directive`. -/
def parse_directive (load : Loader) (doc : Option String) :
    Except String (String × List (String × Yaml)) :=
  match parse_doc load directiveSigil doc with
  | .error e => .error e
  | .ok (desc, data) =>
    match stripKeysAux "$" "directive" [] data with
    | .error e => .error e
    | .ok directives => .ok (desc, directives)

/-- `fighting.app.parse_shared`. -/
def parse_shared (load : Loader) (doc : Option String) :
    Except String (String × List (String × Yaml)) :=
  match parse_doc load sharedSigil doc with
  | .error e => .error e
  | .ok (desc, data) =>
    match stripKeysAux "@" "shared" [] data with
    | .error e => .error e
    | .ok shared => .ok (desc, shared)

/-! ### Requests, responses and the validation engine context -/

/-- The relevant per-request state of the Flask request proxy.
`acceptBest` is the result of
`request.accept_mimetypes.best_match(['text/html', 'application/json'],
default='text/html')` (content negotiation itself is external);
`getJson` is the outcome of `request.get_json()`, an error when the
body is not parseable JSON; `args` are the query-string parameters and
`form` the form-encoded fields. -/
structure Request where
  method : String
  mimetype : String
  getJson : Except String Yaml
  form : List (String × String)
  args : List (String × String)
  acceptBest : String

/-- A route entry of the resource route table: `{'title': ..., 'url': ...}`. -/
structure RouteEntry where
  title : String
  url : String
deriving DecidableEq

/-- The data handed to the external Jinja template by `render` (the
template itself is an external collaborator, so the rendered document
is identified with its input data). -/
structure TemplateInput where
  desc : String
  shared : List (String × String)
  directives : List (String × String)
  resources : List (String × List RouteEntry)

/-- An HTTP response of the pipeline: a JSON response (`jsonify`), an
HTML documentation response (the template output), or an error
response (`abort` / uncaught exception turned into the framework's
error page). -/
inductive Resp where
  | json (status : Nat) (body : Yaml)
  | html (status : Nat) (body : TemplateInput)
  | err (status : Nat) (msg : String)

/-- Status code of a response. -/
def respStatus : Resp → Nat
  | .json st _ => st
  | .html st _ => st
  | .err st _ => st

/-- Is the response the JSON form? -/
def isJsonResp : Resp → Bool
  | .json _ _ => true
  | _ => false

/-- Outcome of invoking a (possibly wrapped) handler: a returned
value, an `abort(message)` (HTTP 400, body is the message), or an
uncaught exception surfaced as the framework's server fault. -/
inductive HResult where
  | ok (v : Yaml)
  | clientErr (msg : String)
  | serverErr (msg : String)

/-- A handler as wrapped by directives: it sees the current request
(Python reaches it through the Flask context) and the keyword
arguments of the call `f(**data)` / `f(*args, **kwargs)`. -/
def Handler := Request → List (String × Yaml) → HResult

/-- The slice of the `Fighting` application handed to directive
factories: `api.schema_parser.parse(meta)` compiles directive metadata
into a validator, failing with a `SchemaError` on bad schemas; a
validator maps a value to its validated/coerced form or an `Invalid`
error. Both are external (`validr`), so they are parameters. -/
structure ApiCtx where
  parse : Yaml → Except String (Yaml → Except String Yaml)

/-- `fighting.app.accept_json`: JSON is accepted when the best match
is `application/json` or `'json' in request.args`. -/
def accept_json (req : Request) : Bool :=
  req.acceptBest = "application/json" || req.args.any (fun p => p.1 = "json")

/-- `fighting.app.get_request_data`: on JSON mimetype decode the body
(any decoding exception aborts with "Invalid JSON content", a
non-mapping payload aborts with "JSON content must be object"),
otherwise return the form fields. Errors are the `abort` messages
(HTTP 400). -/
def get_request_data (req : Request) : Except String (List (String × Yaml)) :=
  if req.mimetype = "application/json" then
    match req.getJson with
    | .error _ => .error "Invalid JSON content"
    | .ok data =>
      match data with
      | .m entries => .ok entries
      | _ => .error "JSON content must be object"
  else .ok (req.form.map (fun p => (p.1, Yaml.s p.2)))

/-- The view closure built by `input_directive`: validate the request
data, abort with 400 on failure (`abort(str(ex))`), call the original
handler with the validated fields as keyword arguments on success.
Calling `f(**data)` with a non-mapping raises a `TypeError` (server
fault). -/
def inputView (validate : Yaml → Except String Yaml) (f : Handler) : Handler :=
  fun req _ =>
    match get_request_data req with
    | .error msg => .clientErr msg
    | .ok entries =>
      match validate (Yaml.m entries) with
      | .error ex => .clientErr ex
      | .ok (Yaml.m fields) => f req fields
      | .ok _ => .serverErr "TypeError: argument after ** must be a mapping"

/-- `fighting.app.input_directive`: compile the metadata into a
validator (a `SchemaError` here fails route registration), returning
the wrapping view. -/
def input_directive (f : Handler) (meta : Yaml) (api : ApiCtx) :
    Except String Handler :=
  match api.parse meta with
  | .error e => .error e
  | .ok validate => .ok (inputView validate f)

/-- The view closure built by `output_directive`: call the inner
handler and validate its return value; an `Invalid` raised here is not
caught, so it surfaces as a server fault. -/
def outputView (validate : Yaml → Except String Yaml) (f : Handler) : Handler :=
  fun req kwargs =>
    match f req kwargs with
    | .ok v =>
      match validate v with
      | .ok v2 => .ok v2
      | .error ex => .serverErr ex
    | e => e

/-- `fighting.app.output_directive`. -/
def output_directive (f : Handler) (meta : Yaml) (api : ApiCtx) :
    Except String Handler :=
  match api.parse meta with
  | .error e => .error e
  | .ok validate => .ok (outputView validate f)

/-- A directive factory `(handler, metadata, api) -> wrapped handler`;
factories may raise at route-registration time (schema compilation). -/
def DirectiveFactory := Handler → Yaml → ApiCtx → Except String Handler

/-- The directive registry `Fighting._directives` (a `dict`). -/
def Registry := List (String × DirectiveFactory)

/-- Dictionary lookup `self._directives[name]`. -/
def lookupDirective (reg : Registry) (name : String) : Option DirectiveFactory :=
  (reg.find? (fun p => p.1 = name)).map Prod.snd

/-- The pre-registered built-ins `{'input': input_directive, 'output':
output_directive}`. -/
def builtinDirectives : Registry :=
  [("input", input_directive), ("output", output_directive)]

/-- `dict.update`: caller-supplied directives override or extend the
built-ins (`Fighting.__init__`). -/
def updateRegistry (base user : Registry) : Registry :=
  user.foldl (fun acc p => odSet acc p.1 p.2) base

/-- The directive loop of `Fighting.make_view`: for each declared
`(name, meta)` in order, look the factory up by name (a missing name
raises `KeyError` at route-registration time) and rewrap the handler. -/
def applyDirectives (reg : Registry) (api : ApiCtx) :
    List (String × Yaml) → Handler → Except String Handler
  | [], f => .ok f
  | (name, meta) :: rest, f =>
    match lookupDirective reg name with
    | none => .error ("KeyError: " ++ name)
    | some factory =>
      match factory f meta api with
      | .error e => .error e
      | .ok f2 => applyDirectives reg api rest f2

/-- `json.dumps(v, ensure_ascii=False, indent=4)` and the Markdown
renderer are external; theorems quantify over them. -/
def Dumps := Yaml → String

/-- `fighting.app.render`: Markdown-transform the description, pretty
print shared and directive entries, sort the resources alphabetically
by name, and hand everything to the (external) template.  Passing
`None` for a section yields an empty mapping. -/
def render (md : String → String) (dumps : Dumps) (desc : String)
    (shared : Option (List (String × Yaml)))
    (resources : Option (List (String × List RouteEntry)))
    (directives : Option (List (String × Yaml))) : TemplateInput :=
  { desc := md desc
    shared := (shared.getD []).map (fun p => (p.1, dumps p.2))
    directives := (directives.getD []).map (fun p => (p.1, dumps p.2))
    resources :=
      match resources with
      | none => []
      | some rs => rs.insertionSort (fun a b => a.1 ≤ b.1) }

/-- The view closure built by `Fighting.make_view` from the parsed
description, the directive mapping and the fully wrapped handler:
POST invokes the handler chain and serialises its result (an `abort`
becomes the attached 400 response, an uncaught exception the
framework's 500), GET returns the documentation in the negotiated
form, anything else is rejected with 405.  Handlers returning a
framework-native response object (passed through unchanged by the
view) are outside this embedding; handler results are structured
values. -/
def viewOf (md : String → String) (dumps : Dumps) (desc : String)
    (directives : List (String × Yaml)) (h : Handler) (req : Request) : Resp :=
  if req.method = "POST" then
    match h req [] with
    | .ok v => .json 200 v
    | .clientErr m => .err 400 m
    | .serverErr m => .err 500 m
  else if req.method = "GET" then
    if accept_json req then
      .json 200 (.m [("desc", .s desc), ("directives", .m directives)])
    else
      .html 200 (render md dumps desc none none (some directives))
  else .err 405 "Method Not Allowed"

/-- `Fighting.make_view`: parse the directive block of the handler
documentation, resolve and apply every directive (all failures here
happen at route-registration time), and close over the result. -/
def make_view (api : ApiCtx) (reg : Registry) (md : String → String)
    (dumps : Dumps) (load : Loader) (doc : Option String) (f : Handler) :
    Except String (Request → Resp) :=
  match parse_directive load doc with
  | .error e => .error e
  | .ok (desc, directives) =>
    match applyDirectives reg api directives f with
    | .error e => .error e
    | .ok h => .ok (viewOf md dumps desc directives h)

/-- `fighting.app.get_title`: the first line of the raw documentation
comment (after stripping newlines from its ends), whitespace-stripped
and truncated to 20 characters plus an ellipsis when longer. -/
def get_title (doc : Option String) : String :=
  match doc with
  | none => ""
  | some d =>
    if d = "" then ""
    else
      let first := ((splitNl (stripNl d).data).headD [])
      let title := pyStrip ⟨first⟩
      if strLen title > 20 then strTake title 20 ++ "..." else title

/-- `self._resources.setdefault(resource, []).append(entry)`: append
to the route list of an existing resource (keeping its position in
the table) or add a new resource at the end. -/
def resAdd (rs : List (String × List RouteEntry)) (r : String)
    (e : RouteEntry) : List (String × List RouteEntry) :=
  if rs.any (fun p => p.1 = r) then
    rs.map (fun p => if p.1 = r then (p.1, p.2 ++ [e]) else p)
  else rs ++ [(r, [e])]

/-- The per-application documentation state of a `Fighting` instance:
the module description and shared registry parsed at startup, and the
resource route table grown by registration. -/
structure AppState where
  desc : String
  shared : List (String × Yaml)
  resources : List (String × List RouteEntry)

/-- `Fighting.res`: compute the URL `/<resource>/<action>` and the
title from the raw docstring, record the route entry in the resource
table, and build the route view (whose failure aborts registration). -/
def res (api : ApiCtx) (reg : Registry) (md : String → String)
    (dumps : Dumps) (load : Loader) (st : AppState) (resource : String)
    (fname : String) (doc : Option String) (f : Handler) :
    Except String (AppState × (Request → Resp)) :=
  let url := "/" ++ resource ++ "/" ++ fname
  let entry : RouteEntry := { title := get_title doc, url := url }
  let st2 := { st with resources := resAdd st.resources resource entry }
  match make_view api reg md dumps load doc f with
  | .error e => .error e
  | .ok view => .ok (st2, view)

/-- The resource route table serialised for `jsonify` in
`Fighting._doc`. -/
def resourcesToYaml (rs : List (String × List RouteEntry)) : Yaml :=
  .m (rs.map (fun p =>
    (p.1, .l (p.2.map (fun e =>
      .m [("title", .s e.title), ("url", .s e.url)])))))

/-- `Fighting._doc`, the root documentation view: the parameters
`desc`, `resources`, `shared` as JSON when JSON is accepted, the
rendered HTML document otherwise; both with status 200. -/
def doc_view (md : String → String) (dumps : Dumps) (st : AppState)
    (req : Request) : Resp :=
  if accept_json req then
    .json 200 (.m [("desc", .s st.desc),
                   ("resources", resourcesToYaml st.resources),
                   ("shared", .m st.shared)])
  else
    .html 200 (render md dumps st.desc (some st.shared) (some st.resources) none)

/-! ### Derived notions used in the statements -/

/-- The proposition that the marker regex matches at character
position `i` of `s`. -/
def markerMatchAt (sigil : Char) (s : String) (i : Nat) : Prop :=
  markerAt sigil (s.data.drop i) = true

instance markerMatchAtDec (sigil : Char) (s : String) (i : Nat) :
    Decidable (markerMatchAt sigil s i) :=
  inferInstanceAs (Decidable (markerAt sigil (s.data.drop i) = true))

/-- Lookup in an association list (`dict`/`OrderedDict` read access). -/
def lookupRes {α : Type} (rs : List (String × α)) (r : String) : Option α :=
  (rs.find? (fun p => p.1 = r)).map Prod.snd

/-- An empty list becomes `none`, anything else `some`. -/
def nonemptyOpt {α : Type} : List α → Option (List α)
  | [] => none
  | l => some l

instance keyLeTotal :
    IsTotal (String × List RouteEntry) (fun a b => a.1 ≤ b.1) :=
  ⟨fun a b => le_total a.1 b.1⟩

instance keyLeTrans :
    IsTrans (String × List RouteEntry) (fun a b => a.1 ≤ b.1) :=
  ⟨fun _ _ _ h1 h2 => le_trans h1 h2⟩

/-- The resource route table grown from `rs` by a sequence of
registrations, each recording `resource name ↦ route entry` the way
`Fighting.res` does. -/
def regFold (regs : List (String × RouteEntry))
    (rs : List (String × List RouteEntry)) : List (String × List RouteEntry) :=
  regs.foldl (fun acc p => resAdd acc p.1 p.2) rs

/-! ### Definitions following the spec words (for comparison with the
code.)  These two are not translations of the source; each formalises
the claim sentence it is named after, to be measured against the
source functions above. -/

/-- Modelled from the claim C2 wording, not from the code: the doc is
split at the start of the first LINE in which the marker pattern
matches (the code's `_parse_doc` instead splits at the match start
itself, which can lie inside a line). -/
def lineMatchOffset (sigil : Char) : List (List Char) → Option Nat
  | [] => none
  | l :: ls =>
    if (searchFrom sigil l).isSome then some 0
    else (lineMatchOffset sigil ls).map (fun off => l.length + 1 + off)

/-- Modelled from the claim C2 wording, not from the code: like
`parse_doc` but splitting at the start of the first line containing a
marker match. -/
def parse_doc_by_line (load : Loader) (sigil : Char) (doc : Option String) :
    Except String (String × List (String × Yaml)) :=
  match doc with
  | none => .ok ("", [])
  | some d =>
    match lineMatchOffset sigil (splitNl d.data) with
    | none => .ok (pyStrip (dedent d), [])
    | some start =>
      match load (dedent (strDrop d start)) with
      | .error e => .error e
      | .ok data => .ok (pyStrip (dedent (strTake d start)), data)

/-- Modelled from the claim C8 wording, not from the code: the title
the claim predicts, computed from the first line of the parsed prose
description (the code's `get_title` instead reads the raw docstring). -/
def title_from_description (desc : String) : String :=
  let t := pyStrip ⟨(splitNl desc.data).headD []⟩
  if strLen t > 20 then strTake t 20 ++ "..." else t

/-! ### Concrete fixtures used by the witnesses and counterexamples -/

/-- A loader echoing the YAML text it receives as a single key. -/
def loadEcho : Loader := fun s => .ok [(s, Yaml.i 0)]

/-- A loader with two well-formed directive keys. -/
def loadTwoKeys : Loader :=
  fun _ => .ok [("$a", Yaml.i 1), ("$b", Yaml.i 2)]

/-- A loader whose second key lacks the sigil. -/
def loadBadKey : Loader :=
  fun _ => .ok [("$a", Yaml.i 1), ("name", Yaml.i 2)]

/-- A loader declaring a directive absent from the registry. -/
def loadUnknownDir : Loader :=
  fun _ => .ok [("$unknown", Yaml.i 1)]

/-- A loader declaring a single `$input` directive. -/
def loadInputOnly : Loader :=
  fun _ => .ok [("$input", Yaml.s "x")]

/-- The identity Markdown stand-in for witnesses. -/
def mdId : String → String := id

/-- A trivial pretty-printer stand-in for witnesses. -/
def dumpsW : Dumps := fun _ => "json"

/-- A validator requiring a mapping holding a `name` field. -/
def valName : Yaml → Except String Yaml := fun y =>
  match y with
  | .m es => if es.any (fun p => p.1 = "name") then .ok (.m es)
             else .error "name is required"
  | _ => .error "must be object"

/-- A validator accepting only strings, wrapping them in a mapping. -/
def valMsg : Yaml → Except String Yaml := fun y =>
  match y with
  | .s v => .ok (.m [("message", .s v)])
  | _ => .error "message must be str"

/-- An api context compiling every metadata to `valName`. -/
def apiName : ApiCtx := { parse := fun _ => .ok valName }

/-- An api context compiling every metadata to `valMsg`. -/
def apiMsg : ApiCtx := { parse := fun _ => .ok valMsg }

/-- A handler echoing its keyword arguments. -/
def echoHandler : Handler := fun _ kwargs => .ok (.m kwargs)

/-- A handler returning a fixed string. -/
def strHandler : Handler := fun _ _ => .ok (.s "kk")

/-- A POST request whose JSON body failed to decode. -/
def reqBadJson : Request :=
  { method := "POST", mimetype := "application/json"
    getJson := .error "ValueError", form := [], args := []
    acceptBest := "text/html" }

/-- A POST request whose JSON body is the array `[1,2,3]`. -/
def reqArrJson : Request :=
  { method := "POST", mimetype := "application/json"
    getJson := .ok (.l [.i 1, .i 2, .i 3]), form := [], args := []
    acceptBest := "text/html" }

/-- A POST request carrying the form field `name=kk`. -/
def reqForm : Request :=
  { method := "POST", mimetype := "application/x-www-form-urlencoded"
    getJson := .error "not json", form := [("name", "kk")], args := []
    acceptBest := "text/html" }

/-- A POST request with a valid JSON object body `{"name": "kk"}`. -/
def reqJsonName : Request :=
  { method := "POST", mimetype := "application/json"
    getJson := .ok (.m [("name", .s "kk")]), form := [], args := []
    acceptBest := "text/html" }

/-- A POST request with the valid but incomplete JSON object body `{}`. -/
def reqJsonEmptyObj : Request :=
  { method := "POST", mimetype := "application/json"
    getJson := .ok (.m []), form := [], args := []
    acceptBest := "text/html" }

/-- A GET request whose best Accept match is JSON. -/
def reqGetJson : Request :=
  { method := "GET", mimetype := ""
    getJson := .error "no body", form := [], args := []
    acceptBest := "application/json" }

/-- A GET request negotiating HTML but carrying the `json` query marker. -/
def reqGetQueryJson : Request :=
  { method := "GET", mimetype := ""
    getJson := .error "no body", form := [], args := [("json", "")]
    acceptBest := "text/html" }

/-- A GET request negotiating HTML with no query marker. -/
def reqGetHtml : Request :=
  { method := "GET", mimetype := ""
    getJson := .error "no body", form := [], args := [("page", "1")]
    acceptBest := "text/html" }

/-- An application state with an empty route table. -/
def stEmpty : AppState := { desc := "", shared := [], resources := [] }

/-- A small application state for the documentation witnesses. -/
def stW : AppState :=
  { desc := "demo", shared := [("message", .s "message?str")]
    resources := [("resource", [{ title := "t", url := "/resource/action" }])] }

/-! ## Theorems -/

theorem odSet_append {α : Type} (m : List (String × α)) (k : String) (v : α)
    (h : ∀ p ∈ m, p.1 ≠ k) : odSet m k v = m ++ [(k, v)] := by
  have hany : m.any (fun p => p.1 = k) = false := by
    rw [List.any_eq_false]
    intro p hp
    simpa using h p hp
  simp [odSet, hany]

theorem pyStartsWith_cons (k sigil : String) (c : Char) (hs : sigil.data = [c])
    (h : pyStartsWith k sigil = true) : k.data = c :: (strDrop k 1).data := by
  unfold pyStartsWith at h
  rw [hs, List.isPrefixOf_iff_prefix] at h
  obtain ⟨t, ht⟩ := h
  show k.data = c :: (k.data.drop 1)
  rw [← ht]
  rfl

theorem strip_nodup (sigil : String) (c : Char) (hs : sigil.data = [c])
    (data : List (String × Yaml))
    (hall : ∀ p ∈ data, pyStartsWith p.1 sigil = true)
    (hnd : (data.map Prod.fst).Nodup) :
    (data.map (fun p => strDrop p.1 1)).Nodup := by
  have hmm : data.map (fun p => strDrop p.1 1)
      = (data.map Prod.fst).map (fun k => strDrop k 1) := by
    simp [List.map_map]
  rw [hmm]
  apply List.Nodup.map_on _ hnd
  intro x hx y hy hxy
  obtain ⟨p, hp, hpe⟩ := List.mem_map.mp hx
  obtain ⟨q, hq, hqe⟩ := List.mem_map.mp hy
  have hxd : x.data = c :: (strDrop x 1).data :=
    pyStartsWith_cons x sigil c hs (by rw [← hpe] at *; exact hall p hp)
  have hyd : y.data = c :: (strDrop y 1).data :=
    pyStartsWith_cons y sigil c hs (by rw [← hqe] at *; exact hall q hq)
  have hdata : x.data = y.data := by rw [hxd, hyd, hxy]
  show x = y
  calc x = ⟨x.data⟩ := rfl
    _ = ⟨y.data⟩ := by rw [hdata]
    _ = y := rfl

theorem stripKeysAux_ok (sigil word : String) (data : List (String × Yaml)) :
    ∀ acc : List (String × Yaml),
      (∀ p ∈ data, pyStartsWith p.1 sigil = true) →
      (data.map (fun p => strDrop p.1 1)).Nodup →
      (∀ p ∈ data, ∀ q ∈ acc, q.1 ≠ strDrop p.1 1) →
      stripKeysAux sigil word acc data =
        .ok (acc ++ data.map (fun p => (strDrop p.1 1, p.2))) := by
  induction data with
  | nil => intro acc _ _ _; simp [stripKeysAux]
  | cons hd tl ih =>
    obtain ⟨k, v⟩ := hd
    intro acc hall hnd hfresh
    have hk : pyStartsWith k sigil = true := hall (k, v) (by simp)
    have hset : odSet acc (strDrop k 1) v = acc ++ [(strDrop k 1, v)] :=
      odSet_append _ _ _ (fun q hq => hfresh (k, v) (by simp) q hq)
    have hnotmem : strDrop k 1 ∉ tl.map (fun p => strDrop p.1 1) :=
      (List.nodup_cons.mp (by simpa using hnd)).1
    have htl := ih (acc ++ [(strDrop k 1, v)])
      (fun p hp => hall p (List.mem_cons_of_mem _ hp))
      (List.nodup_cons.mp (by simpa using hnd)).2
      (by
        intro p hp q hq
        rcases List.mem_append.mp hq with hq1 | hq2
        · exact hfresh p (List.mem_cons_of_mem _ hp) q hq1
        · have : q = (strDrop k 1, v) := by simpa using hq2
          subst this
          intro he
          have he2 : strDrop k 1 = strDrop p.1 1 := he
          exact hnotmem (by rw [he2]; exact List.mem_map_of_mem _ hp))
    simp only [stripKeysAux, hk, if_true, hset, htl]
    simp

theorem stripKeysAux_err (sigil word : String) (pre : List (String × Yaml))
    (k : String) (v : Yaml) (post : List (String × Yaml)) :
    ∀ acc : List (String × Yaml),
      (∀ p ∈ pre, pyStartsWith p.1 sigil = true) →
      pyStartsWith k sigil = false →
      stripKeysAux sigil word acc (pre ++ (k, v) :: post) =
        .error ("Invalid " ++ word ++ " " ++ k) := by
  induction pre with
  | nil => intro acc _ hk; simp [stripKeysAux, hk]
  | cons hd tl ih =>
    obtain ⟨k2, v2⟩ := hd
    intro acc hall hk
    have h2 : pyStartsWith k2 sigil = true := hall (k2, v2) (by simp)
    simp only [List.cons_append, stripKeysAux, h2, if_true]
    exact ih _ (fun p hp => hall p (List.mem_cons_of_mem _ hp)) hk

/-- C1: for every documentation comment whose structured-data block is
well formed, `parse_shared` and `parse_directive` return a mapping in
which every key of the block appears with its one-character sigil
(`@` for shared, `$` for directives) stripped and in the same order as
declared in the comment; and for every comment whose block contains a
key that does not begin with the expected sigil, parsing fails with an
error identifying that key (the first offending one). -/
theorem C1_sigil_strip_and_order (load : Loader) (doc : Option String)
    (desc : String) (data : List (String × Yaml)) :
    (parse_doc load directiveSigil doc = .ok (desc, data) →
      ((data.map Prod.fst).Nodup →
        (∀ p ∈ data, pyStartsWith p.1 "$" = true) →
        parse_directive load doc =
          .ok (desc, data.map (fun p => (strDrop p.1 1, p.2)))) ∧
      (∀ pre k v post, data = pre ++ (k, v) :: post →
        (∀ p ∈ pre, pyStartsWith p.1 "$" = true) →
        pyStartsWith k "$" = false →
        parse_directive load doc = .error ("Invalid directive " ++ k))) ∧
    (parse_doc load sharedSigil doc = .ok (desc, data) →
      ((data.map Prod.fst).Nodup →
        (∀ p ∈ data, pyStartsWith p.1 "@" = true) →
        parse_shared load doc =
          .ok (desc, data.map (fun p => (strDrop p.1 1, p.2)))) ∧
      (∀ pre k v post, data = pre ++ (k, v) :: post →
        (∀ p ∈ pre, pyStartsWith p.1 "@" = true) →
        pyStartsWith k "@" = false →
        parse_shared load doc = .error ("Invalid shared " ++ k))) := by
  constructor
  · intro hpd
    constructor
    · intro hnd hall
      have hstrip := stripKeysAux_ok "$" "directive" data []
        hall (strip_nodup "$" '$' rfl data hall hnd) (by simp)
      simp [parse_directive, hpd, hstrip]
    · intro pre k v post hdata hall hk
      have hstrip := stripKeysAux_err "$" "directive" pre k v post [] hall hk
      simp [parse_directive, hpd, hdata, hstrip]
  · intro hpd
    constructor
    · intro hnd hall
      have hstrip := stripKeysAux_ok "@" "shared" data []
        hall (strip_nodup "@" '@' rfl data hall hnd) (by simp)
      simp [parse_shared, hpd, hstrip]
    · intro pre k v post hdata hall hk
      have hstrip := stripKeysAux_err "@" "shared" pre k v post [] hall hk
      simp [parse_shared, hpd, hdata, hstrip]

/-- Witness for C1: a concrete two-key directive block is stripped in
declaration order, and a block with a sigil-less key fails naming that
key. -/
theorem C1_sigil_strip_and_order_witness :
    parse_directive loadTwoKeys (some "d\n$a: 1\n$b: 2") =
      .ok ("d", [("a", Yaml.i 1), ("b", Yaml.i 2)]) ∧
    parse_directive loadBadKey (some "d\n$a: 1\nname: 2") =
      .error "Invalid directive name" := by
  constructor
  · exact ((C1_sigil_strip_and_order loadTwoKeys (some "d\n$a: 1\n$b: 2") "d"
      [("$a", Yaml.i 1), ("$b", Yaml.i 2)]).1 rfl).1 (by decide) (by decide)
  · exact ((C1_sigil_strip_and_order loadBadKey (some "d\n$a: 1\nname: 2") "d"
      [("$a", Yaml.i 1), ("name", Yaml.i 2)]).1 rfl).2
      [("$a", Yaml.i 1)] "name" (Yaml.i 2) [] rfl (by decide) (by decide)

theorem markerAt_nil (sigil : Char) : markerAt sigil [] = false := rfl

theorem searchFrom_none (sigil : Char) :
    ∀ cs : List Char, (∀ i < cs.length, markerAt sigil (cs.drop i) = false) →
      searchFrom sigil cs = none := by
  intro cs
  induction cs with
  | nil => intro _; rfl
  | cons c cs ih =>
    intro h
    have h0 : markerAt sigil (c :: cs) = false := by simpa using h 0 (by simp)
    have hrest : searchFrom sigil cs = none :=
      ih (fun i hi => by simpa using h (i + 1) (Nat.succ_lt_succ hi))
    simp [searchFrom, h0, hrest]

theorem searchFrom_some (sigil : Char) :
    ∀ (cs : List Char) (i : Nat), markerAt sigil (cs.drop i) = true →
      (∀ j < i, markerAt sigil (cs.drop j) = false) →
      searchFrom sigil cs = some i := by
  intro cs
  induction cs with
  | nil =>
    intro i h _
    rw [List.drop_nil, markerAt_nil] at h
    cases h
  | cons c cs ih =>
    intro i h hmin
    cases i with
    | zero =>
      have h0 : markerAt sigil (c :: cs) = true := by simpa using h
      simp [searchFrom, h0]
    | succ n =>
      have h0 : markerAt sigil (c :: cs) = false := by
        simpa using hmin 0 (Nat.succ_pos n)
      have hrest : searchFrom sigil cs = some n :=
        ih n (by simpa using h)
          (fun j hj => by simpa using hmin (j + 1) (Nat.succ_lt_succ hj))
      simp [searchFrom, h0, hrest]

/-- C2 (amended): the doc splitter returns the empty description and
empty mapping for an absent comment; when the marker pattern matches
nowhere in the comment it returns the whole comment dedented and
trimmed with an empty mapping; and when the pattern does match it
splits the comment at the start of the leftmost match — which may lie
inside a line, at the run of tabs/spaces preceding the sigil — taking
the dedented, trimmed prefix as the description and loading the
dedented suffix as the ordered mapping. -/
theorem C2_doc_splitter (load : Loader) (sigil : Char) :
    (parse_doc load sigil none = .ok ("", [])) ∧
    (∀ s : String, (∀ i < strLen s, ¬ markerMatchAt sigil s i) →
      parse_doc load sigil (some s) = .ok (pyStrip (dedent s), [])) ∧
    (∀ (s : String) (i : Nat), markerMatchAt sigil s i →
      (∀ j < i, ¬ markerMatchAt sigil s j) →
      parse_doc load sigil (some s) =
        match load (dedent (strDrop s i)) with
        | .error e => .error e
        | .ok data => .ok (pyStrip (dedent (strTake s i)), data)) := by
  refine ⟨rfl, ?_, ?_⟩
  · intro s h
    have hs : reSearch sigil s = none := by
      apply searchFrom_none
      intro i hi
      have := h i hi
      simpa [markerMatchAt] using this
    simp [parse_doc, hs]
  · intro s i h hmin
    have hs : reSearch sigil s = some i := by
      apply searchFrom_some
      · simpa [markerMatchAt] using h
      · intro j hj
        have := hmin j hj
        simpa [markerMatchAt] using this
    simp [parse_doc, hs]

/-- Witness for C2: a comment with no marker is returned whole with an
empty mapping, and a comment with a marker is split at the leftmost
match. -/
theorem C2_doc_splitter_witness :
    parse_doc loadEcho directiveSigil (some "no marker") = .ok ("no marker", []) ∧
    parse_doc loadEcho directiveSigil (some "abc\n$in: 1") =
      .ok ("abc", [("$in: 1", Yaml.i 0)]) := by
  constructor
  · exact (C2_doc_splitter loadEcho directiveSigil).2.1 "no marker" (by decide)
  · exact (C2_doc_splitter loadEcho directiveSigil).2.2 "abc\n$in: 1" 4
      (by decide) (by decide)

/-- Counterexample for C2 as stated: in the comment "abc $x: 1" no
line consists of (or begins with) indentation, sigil, word and colon —
yet the code splits it, because the unanchored regex matches mid-line
at the space before the sigil.  A splitter that really cut at the
start of the first matching line would return an empty description
here; the code returns "abc". -/
theorem C2_counterexample :
    parse_doc loadEcho directiveSigil (some "abc $x: 1") =
      .ok ("abc", [("$x: 1", Yaml.i 0)]) ∧
    parse_doc_by_line loadEcho directiveSigil (some "abc $x: 1") =
      .ok ("", [("abc $x: 1", Yaml.i 0)]) ∧
    parse_doc loadEcho directiveSigil (some "abc $x: 1") ≠
      parse_doc_by_line loadEcho directiveSigil (some "abc $x: 1") := by
  refine ⟨rfl, rfl, fun h => ?_⟩
  have h2 : ("abc" : String) = "" :=
    congrArg (fun x =>
      match x with
      | Except.ok p => p.1
      | Except.error _ => "zzz") h
  exact absurd h2 (by decide)

theorem applyDirectives_ok_lookup (reg : Registry) (api : ApiCtx) :
    ∀ (ds : List (String × Yaml)) (f h : Handler),
      applyDirectives reg api ds f = .ok h →
      ∀ p ∈ ds, ∃ fac, lookupDirective reg p.1 = some fac := by
  intro ds
  induction ds with
  | nil => intro f h _ p hp; cases hp
  | cons hd tl ih =>
    obtain ⟨name, meta⟩ := hd
    intro f h happ p hp
    cases hlk : lookupDirective reg name with
    | none => simp [applyDirectives, hlk] at happ
    | some fac =>
      cases hfa : fac f meta api with
      | error e => simp [applyDirectives, hlk, hfa] at happ
      | ok f2 =>
        have htl : applyDirectives reg api tl f2 = .ok h := by
          simpa [applyDirectives, hlk, hfa] using happ
        rcases List.mem_cons.mp hp with he | hm
        · exact ⟨fac, by rw [he]; exact hlk⟩
        · exact ih f2 h htl p hm

theorem applyDirectives_missing (reg : Registry) (api : ApiCtx)
    (ds : List (String × Yaml)) (f : Handler)
    (hex : ∃ p ∈ ds, lookupDirective reg p.1 = none) :
    ∃ e, applyDirectives reg api ds f = .error e := by
  cases happ : applyDirectives reg api ds f with
  | error e => exact ⟨e, rfl⟩
  | ok h =>
    obtain ⟨p, hp, hnone⟩ := hex
    obtain ⟨fac, hfac⟩ := applyDirectives_ok_lookup reg api ds f h happ p hp
    rw [hnone] at hfac
    cases hfac

theorem applyDirectives_congr (api : ApiCtx) :
    ∀ (ds : List (String × Yaml)) (reg reg2 : Registry) (f : Handler),
      (∀ p ∈ ds, lookupDirective reg2 p.1 = lookupDirective reg p.1) →
      applyDirectives reg2 api ds f = applyDirectives reg api ds f := by
  intro ds
  induction ds with
  | nil => intro reg reg2 f _; rfl
  | cons hd tl ih =>
    obtain ⟨name, meta⟩ := hd
    intro reg reg2 f hagree
    have h0 : lookupDirective reg2 name = lookupDirective reg name :=
      hagree (name, meta) (by simp)
    simp only [applyDirectives, h0]
    cases lookupDirective reg name with
    | none => rfl
    | some fac =>
      show (match fac f meta api with
            | Except.error e => Except.error e
            | Except.ok f2 => applyDirectives reg2 api tl f2) =
          (match fac f meta api with
            | Except.error e => Except.error e
            | Except.ok f2 => applyDirectives reg api tl f2)
      cases fac f meta api with
      | error e => rfl
      | ok f2 => exact ih reg reg2 f2 (fun p hp => hagree p (List.mem_cons_of_mem _ hp))

/-- C3: a handler whose directive block names a directive absent from
the registry fails at route registration (`make_view` raises while the
view is built), and request handling never looks factories up: the
view built by `make_view` depends on the registry only through the
factories resolved for the declared directive names, so any registry
agreeing on those names yields the identical view. -/
theorem C3_unknown_directive_fails_at_registration (api : ApiCtx)
    (reg : Registry) (md : String → String) (dumps : Dumps) (load : Loader)
    (doc : Option String) (f : Handler) (desc : String)
    (directives : List (String × Yaml))
    (hp : parse_directive load doc = .ok (desc, directives)) :
    ((∃ p ∈ directives, lookupDirective reg p.1 = none) →
      ∃ e, make_view api reg md dumps load doc f = .error e) ∧
    (∀ reg2 : Registry,
      (∀ p ∈ directives, lookupDirective reg2 p.1 = lookupDirective reg p.1) →
      make_view api reg2 md dumps load doc f =
        make_view api reg md dumps load doc f) := by
  constructor
  · intro hex
    obtain ⟨e, he⟩ := applyDirectives_missing reg api directives f hex
    exact ⟨e, by simp [make_view, hp, he]⟩
  · intro reg2 hagree
    have hcongr := applyDirectives_congr api directives reg reg2 f hagree
    simp [make_view, hp, hcongr]

/-- Witness for C3: registering a handler declaring `$unknown` against
the built-in registry fails. -/
theorem C3_unknown_directive_fails_at_registration_witness :
    ∃ e, make_view apiName builtinDirectives mdId dumpsW loadUnknownDir
      (some "d\n$unknown: 1") strHandler = .error e := by
  refine (C3_unknown_directive_fails_at_registration apiName builtinDirectives
    mdId dumpsW loadUnknownDir (some "d\n$unknown: 1") strHandler "d"
    [("unknown", Yaml.i 1)] rfl).1 ?_
  exact ⟨("unknown", Yaml.i 1), by simp, rfl⟩

/-- C4: for every request reaching a handler wrapped by the built-in
input directive, a payload failing validation aborts the request with
a 400 response whose body is the validation error message and never
reaches the original handler (the wrapped behaviour is independent of
the handler); a payload passing validation invokes the original
handler with exactly the validated fields as keyword arguments. -/
theorem C4_input_directive_validation (f g : Handler) (meta : Yaml)
    (api : ApiCtx) (validate : Yaml → Except String Yaml)
    (hv : api.parse meta = .ok validate) :
    input_directive f meta api = .ok (inputView validate f) ∧
    ∀ (req : Request) (kw : List (String × Yaml)),
      (∀ msg, get_request_data req = .error msg →
        inputView validate f req kw = .clientErr msg ∧
        inputView validate g req kw = inputView validate f req kw) ∧
      (∀ entries e, get_request_data req = .ok entries →
        validate (Yaml.m entries) = .error e →
        inputView validate f req kw = .clientErr e ∧
        inputView validate g req kw = inputView validate f req kw ∧
        (∀ (md : String → String) (dumps : Dumps) (desc : String)
            (dirs : List (String × Yaml)), req.method = "POST" →
          viewOf md dumps desc dirs (inputView validate f) req = .err 400 e)) ∧
      (∀ entries fields, get_request_data req = .ok entries →
        validate (Yaml.m entries) = .ok (Yaml.m fields) →
        inputView validate f req kw = f req fields) := by
  refine ⟨by simp [input_directive, hv], ?_⟩
  intro req kw
  refine ⟨?_, ?_, ?_⟩
  · intro msg hmsg
    exact ⟨by simp [inputView, hmsg], by simp [inputView, hmsg]⟩
  · intro entries e hok he
    refine ⟨by simp [inputView, hok, he], by simp [inputView, hok, he], ?_⟩
    intro md dumps desc dirs hpost
    simp [viewOf, hpost, inputView, hok, he]
  · intro entries fields hok hfields
    simp [inputView, hok, hfields]

/-- Witness for C4: with a name-requiring validator, a form request
carrying `name=kk` reaches the handler with the validated field, an
empty JSON object is rejected with a 400 response carrying the
validation message, and the rejection does not depend on the handler. -/
theorem C4_input_directive_validation_witness :
    input_directive echoHandler Yaml.null apiName =
      .ok (inputView valName echoHandler) ∧
    inputView valName echoHandler reqForm [] =
      echoHandler reqForm [("name", Yaml.s "kk")] ∧
    inputView valName echoHandler reqJsonEmptyObj [] =
      .clientErr "name is required" ∧
    inputView valName strHandler reqJsonEmptyObj [] =
      inputView valName echoHandler reqJsonEmptyObj [] ∧
    viewOf mdId dumpsW "" [] (inputView valName echoHandler) reqJsonEmptyObj =
      .err 400 "name is required" := by
  have h := C4_input_directive_validation echoHandler strHandler Yaml.null
    apiName valName rfl
  refine ⟨h.1, ?_, ?_, ?_, ?_⟩
  · exact (h.2 reqForm []).2.2 [("name", Yaml.s "kk")] [("name", Yaml.s "kk")]
      rfl rfl
  · exact ((h.2 reqJsonEmptyObj []).2.1 [] "name is required" rfl rfl).1
  · exact ((h.2 reqJsonEmptyObj []).2.1 [] "name is required" rfl rfl).2.1
  · exact ((h.2 reqJsonEmptyObj []).2.1 [] "name is required" rfl rfl).2.2
      mdId dumpsW "" [] rfl

/-- C5: the wrapped handler built by the output directive invokes the
original handler and returns its result validated and coerced by the
declared schema; a nonconforming return value raises the validation
error as a server fault — it is not caught and not turned into a 400
client error. -/
theorem C5_output_directive_server_fault (f : Handler) (meta : Yaml)
    (api : ApiCtx) (validate : Yaml → Except String Yaml)
    (hv : api.parse meta = .ok validate) :
    output_directive f meta api = .ok (outputView validate f) ∧
    ∀ (req : Request) (kw : List (String × Yaml)),
      (∀ v v2, f req kw = .ok v → validate v = .ok v2 →
        outputView validate f req kw = .ok v2) ∧
      (∀ v e, f req kw = .ok v → validate v = .error e →
        outputView validate f req kw = .serverErr e ∧
        (∀ msg, outputView validate f req kw ≠ .clientErr msg)) ∧
      (∀ v e, f req [] = .ok v → validate v = .error e →
        ∀ (md : String → String) (dumps : Dumps) (desc : String)
          (dirs : List (String × Yaml)), req.method = "POST" →
          viewOf md dumps desc dirs (outputView validate f) req =
            .err 500 e) := by
  refine ⟨by simp [output_directive, hv], ?_⟩
  intro req kw
  refine ⟨?_, ?_, ?_⟩
  · intro v v2 hfv hval
    simp [outputView, hfv, hval]
  · intro v e hfv hval
    exact ⟨by simp [outputView, hfv, hval], by simp [outputView, hfv, hval]⟩
  · intro v e hfv hval md dumps desc dirs hpost
    simp [viewOf, hpost, outputView, hfv, hval]

/-- Witness for C5: a handler returning the string "kk" under a
validator coercing strings into a message object is coerced, while a
handler returning a mapping is rejected with a server fault, not a
client error. -/
theorem C5_output_directive_server_fault_witness :
    output_directive strHandler Yaml.null apiMsg =
      .ok (outputView valMsg strHandler) ∧
    outputView valMsg strHandler reqForm [] =
      .ok (.m [("message", .s "kk")]) ∧
    outputView valMsg echoHandler reqForm [] =
      .serverErr "message must be str" ∧
    viewOf mdId dumpsW "" [] (outputView valMsg echoHandler) reqForm =
      .err 500 "message must be str" := by
  have h1 := C5_output_directive_server_fault strHandler Yaml.null apiMsg
    valMsg rfl
  have h2 := C5_output_directive_server_fault echoHandler Yaml.null apiMsg
    valMsg rfl
  refine ⟨h1.1, ?_, ?_, ?_⟩
  · exact (h1.2 reqForm []).1 (.s "kk") (.m [("message", .s "kk")]) rfl rfl
  · exact ((h2.2 reqForm []).2.1 (.m []) "message must be str" rfl rfl).1
  · exact (h2.2 reqForm []).2.2 (.m []) "message must be str" rfl rfl
      mdId dumpsW "" [] rfl

/-- C6: a request with mimetype application/json whose body is
malformed JSON aborts extraction with 400 "Invalid JSON content", one
whose JSON payload is not an object aborts with 400 "JSON content must
be object", in both cases before any directive or handler runs (the
input-wrapped behaviour is the 400 abort, independent of the handler);
a request with any other mimetype yields the form fields without
error. -/
theorem C6_request_data_extraction (req : Request) :
    (req.mimetype = "application/json" →
      (∀ e, req.getJson = .error e →
        get_request_data req = .error "Invalid JSON content") ∧
      (∀ v, req.getJson = .ok v → (∀ es, v ≠ Yaml.m es) →
        get_request_data req = .error "JSON content must be object")) ∧
    (req.mimetype ≠ "application/json" →
      get_request_data req = .ok (req.form.map (fun p => (p.1, Yaml.s p.2)))) ∧
    (∀ msg, get_request_data req = .error msg →
      ∀ (validate : Yaml → Except String Yaml) (f g : Handler)
        (kw : List (String × Yaml)),
        inputView validate f req kw = .clientErr msg ∧
        inputView validate g req kw = inputView validate f req kw ∧
        (∀ (md : String → String) (dumps : Dumps) (desc : String)
            (dirs : List (String × Yaml)), req.method = "POST" →
          viewOf md dumps desc dirs (inputView validate f) req =
            .err 400 msg)) := by
  refine ⟨?_, ?_, ?_⟩
  · intro hmt
    constructor
    · intro e he
      simp [get_request_data, hmt, he]
    · intro v hok hne
      simp only [get_request_data, hmt, if_pos rfl, hok]
      cases v with
      | m es => exact absurd rfl (hne es)
      | null => rfl
      | s w => rfl
      | i w => rfl
      | b w => rfl
      | l items => rfl
  · intro hmt
    simp [get_request_data, hmt]
  · intro msg hmsg validate f g kw
    refine ⟨by simp [inputView, hmsg], by simp [inputView, hmsg], ?_⟩
    intro md dumps desc dirs hpost
    simp [viewOf, hpost, inputView, hmsg]

/-- Witness for C6: a malformed JSON body and a JSON array body are
each rejected with the respective message (the array through the
input-wrapped view as a 400 response), while a form request yields its
fields. -/
theorem C6_request_data_extraction_witness :
    get_request_data reqBadJson = .error "Invalid JSON content" ∧
    get_request_data reqArrJson = .error "JSON content must be object" ∧
    get_request_data reqForm = .ok [("name", Yaml.s "kk")] ∧
    viewOf mdId dumpsW "" [] (inputView valName echoHandler) reqArrJson =
      .err 400 "JSON content must be object" := by
  refine ⟨?_, ?_, ?_, ?_⟩
  · exact ((C6_request_data_extraction reqBadJson).1 rfl).1 "ValueError" rfl
  · exact ((C6_request_data_extraction reqArrJson).1 rfl).2
      (.l [.i 1, .i 2, .i 3]) rfl (fun es h => Yaml.noConfusion h)
  · exact (C6_request_data_extraction reqForm).2.1 (by decide)
  · exact (((C6_request_data_extraction reqArrJson).2.2
      "JSON content must be object" rfl valName echoHandler strHandler []).2.2
      mdId dumpsW "" [] rfl)

/-- C7: for every GET request to the root documentation route or to a
registered route, the JSON form of the documentation is selected
exactly when the best Accept match among text/html and
application/json is application/json or the query string carries the
`json` marker key; either way the status is 200. -/
theorem C7_content_negotiation (md : String → String) (dumps : Dumps)
    (st : AppState) (desc : String) (dirs : List (String × Yaml))
    (h : Handler) (req : Request) (hm : req.method = "GET") :
    (accept_json req = true ↔
      (req.acceptBest = "application/json" ∨ ∃ p ∈ req.args, p.1 = "json")) ∧
    respStatus (doc_view md dumps st req) = 200 ∧
    isJsonResp (doc_view md dumps st req) = accept_json req ∧
    respStatus (viewOf md dumps desc dirs h req) = 200 ∧
    isJsonResp (viewOf md dumps desc dirs h req) = accept_json req := by
  have hiff : accept_json req = true ↔
      (req.acceptBest = "application/json" ∨ ∃ p ∈ req.args, p.1 = "json") := by
    simp [accept_json, List.any_eq_true]
  refine ⟨hiff, ?_, ?_, ?_, ?_⟩
  · cases haj : accept_json req <;> simp [doc_view, haj, respStatus]
  · cases haj : accept_json req <;> simp [doc_view, haj, isJsonResp]
  · cases haj : accept_json req <;> simp [viewOf, hm, haj, respStatus]
  · cases haj : accept_json req <;> simp [viewOf, hm, haj, isJsonResp]

/-- Witness for C7: the root documentation view answers a JSON-
negotiating GET with JSON, an HTML-negotiating GET with HTML, and a
route view answers a GET carrying the `json` query marker with JSON;
all with status 200. -/
theorem C7_content_negotiation_witness :
    respStatus (doc_view mdId dumpsW stW reqGetJson) = 200 ∧
    isJsonResp (doc_view mdId dumpsW stW reqGetJson) = true ∧
    respStatus (doc_view mdId dumpsW stW reqGetHtml) = 200 ∧
    isJsonResp (doc_view mdId dumpsW stW reqGetHtml) = false ∧
    respStatus (viewOf mdId dumpsW "d" [] strHandler reqGetQueryJson) = 200 ∧
    isJsonResp (viewOf mdId dumpsW "d" [] strHandler reqGetQueryJson) = true := by
  have h1 := C7_content_negotiation mdId dumpsW stW "d" [] strHandler
    reqGetJson rfl
  have h2 := C7_content_negotiation mdId dumpsW stW "d" [] strHandler
    reqGetHtml rfl
  have h3 := C7_content_negotiation mdId dumpsW stW "d" [] strHandler
    reqGetQueryJson rfl
  exact ⟨h1.2.1, h1.2.2.1.trans rfl, h2.2.1, h2.2.2.1.trans rfl,
    h3.2.2.2.1, h3.2.2.2.2.trans rfl⟩

theorem find?_map_keys {β : Type} (r2 : String)
    (g : (String × β) → (String × β)) (hk : ∀ q, (g q).1 = q.1)
    (rs : List (String × β)) :
    (rs.map g).find? (fun p => p.1 = r2) =
      (rs.find? (fun p => p.1 = r2)).map g := by
  induction rs with
  | nil => rfl
  | cons p tl ih =>
    by_cases hp : p.1 = r2
    · simp [List.find?_cons, hk, hp]
    · simp [List.find?_cons, hk, hp, ih]

theorem lookupRes_resAdd_self (rs : List (String × List RouteEntry))
    (r : String) (e : RouteEntry) :
    lookupRes (resAdd rs r e) r =
      some ((lookupRes rs r).getD [] ++ [e]) := by
  by_cases hany : rs.any (fun q => q.1 = r)
  · have hex : ∃ q ∈ rs, q.1 = r := by
      simpa [List.any_eq_true] using hany
    obtain ⟨q, hq⟩ : ∃ q, rs.find? (fun p => p.1 = r) = some q := by
      cases hf : rs.find? (fun p => p.1 = r) with
      | some q => exact ⟨q, rfl⟩
      | none =>
        rw [List.find?_eq_none] at hf
        obtain ⟨q, hqm, hqr⟩ := hex
        exact absurd (by simpa using hqr) (by simpa using hf q hqm)
    have hq1 : q.1 = r := by simpa using List.find?_some hq
    have hmap : resAdd rs r e =
        rs.map (fun q => if q.1 = r then (q.1, q.2 ++ [e]) else q) := by
      simp [resAdd, hany]
    rw [hmap]
    unfold lookupRes
    rw [find?_map_keys r _ (fun q => by by_cases hq2 : q.1 = r <;> simp [hq2]),
      hq]
    simp [lookupRes, hq, hq1]
  · have hany2 : rs.any (fun q => q.1 = r) = false := Bool.eq_false_iff.mpr hany
    have hfn : rs.find? (fun p => p.1 = r) = none := by
      rw [List.find?_eq_none]
      intro x hx
      rw [List.any_eq_false] at hany2
      simpa using hany2 x hx
    have happ : resAdd rs r e = rs ++ [(r, [e])] := by simp [resAdd, hany]
    rw [happ]
    unfold lookupRes
    rw [List.find?_append, hfn]
    simp [List.find?_cons]

theorem lookupRes_resAdd_other (rs : List (String × List RouteEntry))
    (r r2 : String) (e : RouteEntry) (h : r2 ≠ r) :
    lookupRes (resAdd rs r e) r2 = lookupRes rs r2 := by
  by_cases hany : rs.any (fun q => q.1 = r)
  · have hmap : resAdd rs r e =
        rs.map (fun q => if q.1 = r then (q.1, q.2 ++ [e]) else q) := by
      simp [resAdd, hany]
    rw [hmap]
    unfold lookupRes
    rw [find?_map_keys r2 _ (fun q => by by_cases hq2 : q.1 = r <;> simp [hq2])]
    cases hf : rs.find? (fun p => p.1 = r2) with
    | none => rfl
    | some q =>
      have hq2 : q.1 = r2 := by simpa using List.find?_some hf
      have hgq : (if q.1 = r then (q.1, q.2 ++ [e]) else q) = q := by
        rw [if_neg]
        rw [hq2]
        exact h
      simp [hgq]
  · have happ : resAdd rs r e = rs ++ [(r, [e])] := by simp [resAdd, hany]
    rw [happ]
    unfold lookupRes
    rw [List.find?_append]
    have hone : [((r : String), ([e] : List RouteEntry))].find?
        (fun p => p.1 = r2) = none := by
      simp [List.find?_cons, Ne.symm h]
    rw [hone]
    simp

theorem resAdd_keys_nodup (rs : List (String × List RouteEntry)) (r : String)
    (e : RouteEntry) (hnd : (rs.map Prod.fst).Nodup) :
    ((resAdd rs r e).map Prod.fst).Nodup := by
  by_cases hany : rs.any (fun q => q.1 = r)
  · have hmap : resAdd rs r e =
        rs.map (fun q => if q.1 = r then (q.1, q.2 ++ [e]) else q) := by
      simp [resAdd, hany]
    have hkeys : (resAdd rs r e).map Prod.fst = rs.map Prod.fst := by
      rw [hmap, List.map_map]
      apply List.map_congr_left
      intro q _
      by_cases hq1 : q.1 = r <;> simp [hq1]
    rw [hkeys]
    exact hnd
  · have happ : resAdd rs r e = rs ++ [(r, [e])] := by simp [resAdd, hany]
    rw [happ]
    have hany2 : rs.any (fun q => q.1 = r) = false := Bool.eq_false_iff.mpr hany
    rw [List.any_eq_false] at hany2
    simp only [List.map_append, List.map_cons, List.map_nil]
    rw [List.nodup_append]
    refine ⟨hnd, List.nodup_singleton r, ?_⟩
    intro x hx hx2
    have hxr : x = r := by simpa using hx2
    obtain ⟨q, hqm, hqr⟩ := List.mem_map.mp hx
    have hq1 : q.1 = r := by rw [hqr, hxr]
    have hcontra := hany2 q hqm
    simp [hq1] at hcontra

theorem regFold_keys_nodup (regs : List (String × RouteEntry)) :
    ∀ rs : List (String × List RouteEntry),
      (rs.map Prod.fst).Nodup → ((regFold regs rs).map Prod.fst).Nodup := by
  induction regs with
  | nil => intro rs h; exact h
  | cons p tl ih =>
    intro rs h
    exact ih (resAdd rs p.1 p.2) (resAdd_keys_nodup rs p.1 p.2 h)

theorem regFold_lookup (regs : List (String × RouteEntry)) :
    ∀ (rs : List (String × List RouteEntry)) (r : String),
      lookupRes (regFold regs rs) r =
        match lookupRes rs r with
        | some l => some (l ++ (regs.filter (fun p => p.1 = r)).map Prod.snd)
        | none => nonemptyOpt ((regs.filter (fun p => p.1 = r)).map Prod.snd) := by
  induction regs with
  | nil =>
    intro rs r
    cases h : lookupRes rs r <;> simp [regFold, nonemptyOpt, h]
  | cons p tl ih =>
    intro rs r
    have hstep : regFold (p :: tl) rs = regFold tl (resAdd rs p.1 p.2) := rfl
    rw [hstep, ih]
    by_cases hpr : p.1 = r
    · rw [hpr, lookupRes_resAdd_self rs r p.2]
      have hfil : (p :: tl).filter (fun q => q.1 = r) =
          p :: tl.filter (fun q => q.1 = r) := by
        simp [List.filter_cons, hpr]
      rw [hfil]
      cases h : lookupRes rs r <;> simp [h, nonemptyOpt]
    · rw [lookupRes_resAdd_other rs p.1 r p.2 (fun hh => hpr hh.symm)]
      have hfil : (p :: tl).filter (fun q => q.1 = r) =
          tl.filter (fun q => q.1 = r) := by
        simp [List.filter_cons, hpr]
      rw [hfil]

theorem lookupRes_of_mem (rs : List (String × List RouteEntry))
    (hnd : (rs.map Prod.fst).Nodup) (r : String) (l : List RouteEntry)
    (hm : (r, l) ∈ rs) : lookupRes rs r = some l := by
  induction rs with
  | nil => cases hm
  | cons p tl ih =>
    rcases List.mem_cons.mp hm with he | htl
    · rw [← he]
      simp [lookupRes, List.find?_cons]
    · by_cases hp : p.1 = r
      · exfalso
        have hrmem : r ∈ tl.map Prod.fst := List.mem_map.mpr ⟨(r, l), htl, rfl⟩
        have hhead : p.1 ∉ tl.map Prod.fst :=
          (List.nodup_cons.mp (by simpa using hnd)).1
        exact hhead (by rw [hp]; exact hrmem)
      · have ihh := ih (List.nodup_cons.mp (by simpa using hnd)).2 htl
        simpa [lookupRes, List.find?_cons, hp] using ihh

/-- Counterexample for C8 as stated: the docstring "$input: x" has an
empty prose description (the whole comment is the directive block), so
a title derived from the description's first line would be empty; the
code's `get_title` reads the raw docstring and yields "$input: x". -/
theorem C8_counterexample :
    parse_directive loadInputOnly (some "$input: x") =
      .ok ("", [("input", Yaml.s "x")]) ∧
    title_from_description "" = "" ∧
    get_title (some "$input: x") = "$input: x" ∧
    get_title (some "$input: x") ≠ title_from_description "" := by
  exact ⟨rfl, rfl, rfl, by decide⟩

/-- C8 (amended): the route-table title is derived from the first line
of the handler's raw documentation comment after stripping newline
characters from its ends (this equals the first line of the prose
description whenever the comment starts with prose, but is directive
text when the comment starts with the directive block): the line is
whitespace-stripped; when longer than 20 characters the title is its
first 20 characters followed by the ellipsis marker "..." (23
characters in total), otherwise it is the line unchanged; the entry
recorded in the resource route table by registration carries exactly
this title. -/
theorem C8_title_truncation (d t : String)
    (ht : t = pyStrip ⟨(splitNl (stripNl d).data).headD []⟩) (hne : d ≠ "") :
    (strLen t ≤ 20 → get_title (some d) = t) ∧
    (20 < strLen t →
      get_title (some d) = strTake t 20 ++ "..." ∧
      strLen (get_title (some d)) = 23) ∧
    (∀ api reg md dumps load st resource fname f st2 view,
      res api reg md dumps load st resource fname (some d) f = .ok (st2, view) →
      lookupRes st2.resources resource =
        some ((lookupRes st.resources resource).getD [] ++
          [{ title := get_title (some d),
             url := "/" ++ resource ++ "/" ++ fname }])) := by
  have hg : get_title (some d) =
      if strLen t > 20 then strTake t 20 ++ "..." else t := by
    rw [ht]
    simp [get_title, hne]
  refine ⟨?_, ?_, ?_⟩
  · intro h20
    rw [hg, if_neg (by omega)]
  · intro h20
    rw [hg, if_pos h20]
    refine ⟨rfl, ?_⟩
    have hlen : strLen (strTake t 20 ++ "...") = (t.data.take 20).length + 3 := by
      show ((t.data.take 20) ++ ("...").data).length = (t.data.take 20).length + 3
      rw [List.length_append]
      rfl
    rw [hlen, List.length_take]
    have : 20 ≤ t.data.length := by
      have := h20
      simp only [strLen] at this
      omega
    omega
  · intro api reg md dumps load st resource fname f st2 view hres
    simp only [res] at hres
    cases hmv : make_view api reg md dumps load (some d) f with
    | error e => rw [hmv] at hres; cases hres
    | ok v =>
      rw [hmv] at hres
      cases hres
      exact lookupRes_resAdd_self st.resources resource _

/-- Witness for C8: a 37-character first line is truncated to its
first 20 characters plus the ellipsis (23 characters in total), a
short first line passes unchanged, and registering a handler records
an entry with exactly that title. -/
theorem C8_title_truncation_witness :
    get_title (some "this is a very long first line indeed\nrest") =
      "this is a very long ..." ∧
    strLen (get_title (some "this is a very long first line indeed\nrest")) =
      23 ∧
    get_title (some "  hi there\nworld") = "hi there" ∧
    lookupRes ([("resource", [RouteEntry.mk "hi there" "/resource/action2"])]
        : List (String × List RouteEntry)) "resource" =
      some [RouteEntry.mk "hi there" "/resource/action2"] := by
  have hlong := C8_title_truncation "this is a very long first line indeed\nrest"
    "this is a very long first line indeed" rfl (by decide)
  have hshort := C8_title_truncation "  hi there\nworld" "hi there" rfl (by decide)
  refine ⟨?_, ?_, hshort.1 (by decide), ?_⟩
  · exact ((hlong.2.1 (by decide)).1).trans rfl
  · exact (hlong.2.1 (by decide)).2
  · exact (hshort.2.2 apiName builtinDirectives mdId dumpsW loadEcho stEmpty
      "resource" "action2" strHandler
      { stEmpty with resources :=
          [("resource", [RouteEntry.mk "hi there" "/resource/action2"])] }
      (viewOf mdId dumpsW "hi there\nworld" [] strHandler) rfl)

/-- C9: in the generated documentation the resources are presented
sorted alphabetically by resource name (the renderer sorts the table
it hands to the template), and within each resource the list of
{title, url} entries appears in registration order: the table grown by
successive registrations maps each resource to exactly the entries
registered under it, oldest first, and the renderer permutes the table
without touching the per-resource lists. -/
theorem C9_resources_sorted_registration_order (md : String → String)
    (dumps : Dumps) (descG : String) (shared : List (String × Yaml))
    (regs : List (String × RouteEntry)) :
    List.Sorted (fun a b => a.1 ≤ b.1)
      ((render md dumps descG (some shared)
        (some (regFold regs [])) none).resources) ∧
    List.Perm
      ((render md dumps descG (some shared)
        (some (regFold regs [])) none).resources)
      (regFold regs []) ∧
    (∀ r, lookupRes (regFold regs []) r =
      nonemptyOpt ((regs.filter (fun p => p.1 = r)).map Prod.snd)) ∧
    (∀ r l, (r, l) ∈ (render md dumps descG (some shared)
        (some (regFold regs [])) none).resources →
      l = (regs.filter (fun p => p.1 = r)).map Prod.snd) := by
  have hres : (render md dumps descG (some shared)
      (some (regFold regs [])) none).resources
      = (regFold regs []).insertionSort (fun a b => a.1 ≤ b.1) := rfl
  have hlookup : ∀ r, lookupRes (regFold regs []) r =
      nonemptyOpt ((regs.filter (fun p => p.1 = r)).map Prod.snd) :=
    fun r => regFold_lookup regs [] r
  refine ⟨?_, ?_, hlookup, ?_⟩
  · rw [hres]
    exact List.sorted_insertionSort _ _
  · rw [hres]
    exact List.perm_insertionSort _ _
  · intro r l hm
    rw [hres] at hm
    have hm2 : (r, l) ∈ regFold regs [] :=
      (List.perm_insertionSort (fun a b => a.1 ≤ b.1)
        (regFold regs [])).mem_iff.mp hm
    have hnd : ((regFold regs []).map Prod.fst).Nodup :=
      regFold_keys_nodup regs [] (by simp)
    have hl := lookupRes_of_mem (regFold regs []) hnd r l hm2
    rw [hlookup r] at hl
    cases hfil : (regs.filter (fun p => p.1 = r)).map Prod.snd with
    | nil =>
      rw [hfil] at hl
      simp [nonemptyOpt] at hl
    | cons x xs =>
      rw [hfil] at hl
      have hx : some (x :: xs) = some l := hl
      exact (Option.some.injEq _ _ |>.mp hx).symm

/-- Witness for C9: three registrations under two resources produce a
table whose "b" entry, found in the sorted presentation, lists the two
"b" registrations in order. -/
theorem C9_resources_sorted_registration_order_witness :
    [RouteEntry.mk "t1" "/b/x", RouteEntry.mk "t3" "/b/z"] =
      ([("b", RouteEntry.mk "t1" "/b/x"), ("a", RouteEntry.mk "t2" "/a/y"),
        ("b", RouteEntry.mk "t3" "/b/z")].filter
          (fun p => p.1 = "b")).map Prod.snd := by
  exact (C9_resources_sorted_registration_order mdId dumpsW "g" []
      [("b", RouteEntry.mk "t1" "/b/x"), ("a", RouteEntry.mk "t2" "/a/y"),
       ("b", RouteEntry.mk "t3" "/b/z")]).2.2.2 "b"
    [RouteEntry.mk "t1" "/b/x", RouteEntry.mk "t3" "/b/z"]
    ((List.perm_insertionSort (fun a b => a.1 ≤ b.1)
      (regFold [("b", RouteEntry.mk "t1" "/b/x"),
        ("a", RouteEntry.mk "t2" "/a/y"),
        ("b", RouteEntry.mk "t3" "/b/z")] [])).mem_iff.mpr (by decide))

/-- C10: a handler whose documentation comment contains no directive
block (an absent comment included) goes through the directive
application step unchanged: the fold over an empty directive mapping
is the identity, the view closes over the original handler function
itself, and its POST path invokes exactly that handler — no input and
no output validation wraps it. -/
theorem C10_empty_directives_identity (api : ApiCtx) (reg : Registry)
    (md : String → String) (dumps : Dumps) (load : Loader)
    (doc : Option String) (f : Handler) (desc : String)
    (hp : parse_directive load doc = .ok (desc, [])) :
    applyDirectives reg api [] f = .ok f ∧
    make_view api reg md dumps load doc f = .ok (viewOf md dumps desc [] f) ∧
    (∀ req, req.method = "POST" →
      viewOf md dumps desc [] f req =
        match f req [] with
        | .ok v => .json 200 v
        | .clientErr m => .err 400 m
        | .serverErr m => .err 500 m) := by
  refine ⟨rfl, ?_, ?_⟩
  · simp [make_view, hp, applyDirectives]
  · intro req hpost
    simp [viewOf, hpost]

/-- Witness for C10: a handler without documentation is registered as
itself, and POSTing to it returns its own result serialised. -/
theorem C10_empty_directives_identity_witness :
    make_view apiName builtinDirectives mdId dumpsW loadEcho none strHandler =
      .ok (viewOf mdId dumpsW "" [] strHandler) ∧
    viewOf mdId dumpsW "" [] strHandler reqForm = .json 200 (.s "kk") := by
  have h := C10_empty_directives_identity apiName builtinDirectives mdId dumpsW
    loadEcho none strHandler "" rfl
  exact ⟨h.2.1, (h.2.2 reqForm rfl).trans rfl⟩
